import Mathlib

/-!
Verification development for the grammar string-enumeration engine
(`grammar.py`): a shallow embedding of its data model and operations,
with theorems settling the specification's claims about them.

Python strings are embedded as `List Char`.  Operations that can raise a
Python exception are embedded with `Option` (`none` models a raised
exception); `Grammar.init` returns an `InitResult` distinguishing the
engine's own `GrammarError` from Python's `ValueError`.
-/

namespace GrammarExperiment

/-- A Python string. -/
abbrev Str := List Char

/-! ### Model of the Python `re` fragment used by `Rule.get_children`

`Rule.get_children` calls `re.findall(self.symbol, node)`, i.e. the rule's
symbol is compiled as a regular expression.  We model the fragment of
Python regular expressions in which every pattern consists of ordinary
characters and the metacharacter `.` (which matches any character except a
newline): each atom consumes exactly one character.  Symbols containing
any other regex metacharacter are outside the modelled fragment and map
to `none`. -/

/-- One regex atom: a literal character, or `.` (any char except newline). -/
inductive Atom
  | lit (c : Char)
  | dot
deriving DecidableEq

/-- Whether a single atom matches a single character. -/
def atomMatch : Atom → Char → Bool
  | .lit c, x => x == c
  | .dot, x => x != '\n'

/-- Whether the atom list matches a prefix of `w` (one char per atom). -/
def matchAts : List Atom → Str → Bool
  | [], _ => true
  | _ :: _, [] => false
  | a :: as, c :: cs => atomMatch a c && matchAts as cs

/-- The scanning loop of `re.findall`: left-to-right, non-overlapping;
after a match the scan resumes past the matched text (`skip` counts the
remaining characters to step over). -/
def reScan (ats : List Atom) : Str → Nat → Nat
  | [], _ => 0
  | _ :: t, Nat.succ k => reScan ats t k
  | c :: t, 0 =>
    if matchAts ats (c :: t) then 1 + reScan ats t (ats.length - 1)
    else reScan ats t 0

/-- `len(re.findall(pattern, w))` for an in-fragment pattern: the scan
count, plus the empty match that Python also finds at the end of the
string when the pattern is empty. -/
def pyFindallCount (ats : List Atom) (w : Str) : Nat :=
  reScan ats w 0 + (if ats.isEmpty then 1 else 0)

/-- The regex metacharacters of Python `re`. -/
def reMeta : List Char :=
  ['.', '^', '$', '*', '+', '?', '\x7b', '\x7d', '[', ']', '\\', '|', '(', ')']

/-- Compile a symbol string as a Python regex, restricted to the modelled
fragment: `.` becomes `Atom.dot`, ordinary characters become literals,
any other metacharacter is outside the fragment (`none`). -/
def parseSym : Str → Option (List Atom)
  | [] => some []
  | c :: t =>
    if c = '.' then (parseSym t).map (fun as => Atom.dot :: as)
    else if c ∈ reMeta then none
    else (parseSym t).map (fun as => Atom.lit c :: as)

/-! ### Model of the Python `str` operations used by the engine -/

/-- Split `s` at the first literal occurrence of `sub`, returning the text
before and after it; `none` when `sub` does not occur. -/
def splitFirst (sub : Str) : Str → Option (Str × Str)
  | [] => if sub.isPrefixOf [] then some ([], []) else none
  | c :: t =>
    if sub.isPrefixOf (c :: t) then some ([], (c :: t).drop sub.length)
    else (splitFirst sub t).map (fun p => (c :: p.1, p.2))

/-- Python `s.split(sub, maxsplit)` for a non-empty separator, returned as
(all pieces but the last, last piece). -/
def pySplitR (sub : Str) : Nat → Str → List Str × Str
  | 0, s => ([], s)
  | Nat.succ m, s =>
    match splitFirst sub s with
    | none => ([], s)
    | some (u, v) =>
      let p := pySplitR sub m v
      (u :: p.1, p.2)

/-- Python `s.split(sub)` (unbounded): `s.length` splits always suffice. -/
def pySplitAll (sub s : Str) : List Str :=
  let p := pySplitR sub s.length s
  p.1 ++ [p.2]

/-- Python `needle in hay` for strings: literal substring containment. -/
def pyIn (needle : Str) : Str → Bool
  | [] => needle.isPrefixOf []
  | c :: t => needle.isPrefixOf (c :: t) || pyIn needle t

/-- `Rule.__replace_nth_substring`:
`*splits, tail = string.split(substring, n+1)` followed by
`replacement_string.join([substring.join(splits), tail])`.
Python's `str.split` raises `ValueError` on an empty separator (`none`). -/
def replace_nth_substring (s sub repl : Str) (n : Nat) : Option Str :=
  if sub = [] then none
  else
    let p := pySplitR sub (n + 1) s
    some (List.intercalate sub p.1 ++ repl ++ p.2)

/-- `Option`-valued map over a list, stopping at the first failure (the
first raised exception in a Python loop). -/
def optMap {α β : Type} (f : α → Option β) : List α → Option (List β)
  | [] => some []
  | a :: as => do
    let b ← f a
    let bs ← optMap f as
    pure (b :: bs)

/-! ### The engine -/

/-- Constant `ARROW_SEPERATOR = " -> "`. -/
def ARROW_SEPERATOR : Str := " -> ".data

/-- Constant `RULE_DELIMETER = " | "`. -/
def RULE_DELIMETER : Str := " | ".data

/-- A rule of the grammar: a nonterminal symbol and its patterns. -/
structure Rule where
  symbol : Str
  patterns : List Str
deriving DecidableEq

/-- `Rule.get_children`: `symbol_count = len(re.findall(self.symbol, node))`;
then for each `i in range(symbol_count)` and each pattern, append
`__replace_nth_substring(node, self.symbol, pattern, i)`. -/
def Rule.get_children (r : Rule) (node : Str) : Option (List Str) := do
  let ats ← parseSym r.symbol
  let symbol_count := pyFindallCount ats node
  let chunks ← optMap
    (fun i => optMap (fun pat => replace_nth_substring node r.symbol pat i) r.patterns)
    (List.range symbol_count)
  pure chunks.flatten

/-- `Rule.__string_to_rule_info`: `symbol, patterns = string.split(" -> ")`
(a `ValueError`, modelled by `none`, unless the split yields exactly two
pieces), then `patterns = patterns.split(" | ")`. -/
def string_to_rule_info (s : Str) : Option (Str × List Str) :=
  match pySplitAll ARROW_SEPERATOR s with
  | [symbol, patterns] => some (symbol, pySplitAll RULE_DELIMETER patterns)
  | _ => none

/-- `Rule(string=s)`: parse the textual form into a rule. -/
def Rule.from_string (s : Str) : Option Rule :=
  (string_to_rule_info s).map (fun p => ⟨p.1, p.2⟩)

/-- `Grammar.__strings_to_rules`: `[Rule(string=x) for x in strings]`. -/
def strings_to_rules (strings : List Str) : Option (List Rule) :=
  optMap Rule.from_string strings

/-- A grammar: an ordered list of rules. -/
structure Grammar where
  rules : List Rule
deriving DecidableEq

/-- Outcome of `Grammar.__init__`: a grammar, the engine's `GrammarError`,
or a `ValueError` escaping from the textual rule parser. -/
inductive InitResult
  | ok (g : Grammar)
  | grammarError
  | valueError
deriving DecidableEq

/-- `Grammar.__init__(rules, string_rules)`: `string_rules` is used when
not `None`, else `rules`, else `GrammarError("No rules supplied.")`. -/
def Grammar.init (rules : Option (List Rule)) (string_rules : Option (List Str)) :
    InitResult :=
  match string_rules with
  | some ss =>
    match strings_to_rules ss with
    | some rs => .ok ⟨rs⟩
    | none => .valueError
  | none =>
    match rules with
    | some rs => .ok ⟨rs⟩
    | none => .grammarError

/-- `Grammar.get_children`: extend `children` by each rule's children, in
declaration order. -/
def Grammar.get_children (g : Grammar) (node : Str) : Option (List Str) := do
  let ls ← optMap (fun r => r.get_children node) g.rules
  pure ls.flatten

/-- `Grammar.__get_symbols`: the rules' symbols in declaration order. -/
def Grammar.get_symbols (g : Grammar) : List Str :=
  g.rules.map (fun r => r.symbol)

/-- `Grammar.__default_root`: `"".join(self.__get_symbols())`. -/
def Grammar.default_root (g : Grammar) : Str :=
  g.get_symbols.flatten

/-- The terminal filter of `possible_strings`:
`bool([x for x in rule_symbols if x not in a])`. -/
def isTerminal (rule_symbols : List Str) (a : Str) : Bool :=
  !(rule_symbols.filter (fun x => !(pyIn x a))).isEmpty

/-- The level-building loop of `possible_strings`: `levels = [[root]]`,
then `search_depth` times append the concatenation of the children of the
last level's nodes.  Returns (all levels, last level). -/
def buildLevels (g : Grammar) (root : Str) : Nat → Option (List (List Str) × List Str)
  | 0 => some ([[root]], [root])
  | Nat.succ d => do
    let p ← buildLevels g root d
    let cs ← optMap (fun node => g.get_children node) p.2
    let nl := cs.flatten
    pure (p.1 ++ [nl], nl)

/-- `Grammar.possible_strings(search_depth, root=None)`: build the levels,
flatten them into `all_nodes`, and keep the sentences passing the
terminal filter. -/
def Grammar.possible_strings (g : Grammar) (search_depth : Nat)
    (root : Option Str) : Option (List Str) := do
  let r := root.getD g.default_root
  let p ← buildLevels g r search_depth
  let all_nodes := p.1.flatten
  pure (all_nodes.filter (fun a => isTerminal g.get_symbols a))

/-- The grammar of the module's `__main__` block, built from the single
textual rule `"A -> 0 | 1 | 0A | 1A"`. -/
def gA : Grammar :=
  ⟨[⟨"A".data, ["0".data, "1".data, "0A".data, "1A".data]⟩]⟩

/-- A one-rule grammar whose symbol is the regex metacharacter `.`. -/
def gDot : Grammar := ⟨[⟨".".data, ["x".data]⟩]⟩

/-- A symbol on which the engine's mixed regex/literal treatment is
coherent: non-empty and free of regex metacharacters. -/
def plainSym (s : Str) : Prop :=
  s ≠ [] ∧ ∀ c ∈ s, c ∉ reMeta

instance plainSym.dec (s : Str) : Decidable (plainSym s) := by
  unfold plainSym; infer_instance

end GrammarExperiment

namespace GrammarExperiment

/-! ### Helper lemmas -/

/-- `pyIn` decides literal substring containment. -/
theorem pyIn_iff (needle hay : Str) : pyIn needle hay = true ↔ needle <:+: hay := by
  induction hay with
  | nil =>
    cases needle with
    | nil => rw [pyIn]; simp
    | cons a as => rw [pyIn]; simp
  | cons c t ih =>
    simp [pyIn, List.isPrefixOf_iff_prefix, ih, List.infix_cons_iff]

/-- An all-literal atom list matches a prefix of `v` exactly when the
underlying string is a prefix of `v`. -/
theorem matchAts_lit_iff (s : Str) : ∀ v : Str,
    matchAts (s.map Atom.lit) v = true ↔ s <+: v := by
  induction s with
  | nil => intro v; simp [matchAts]
  | cons a as ih =>
    intro v
    cases v with
    | nil => simp [matchAts]
    | cons b bs =>
      simp only [List.map_cons, matchAts, atomMatch, Bool.and_eq_true, beq_iff_eq, ih,
        List.cons_prefix_cons]
      exact and_congr_left (fun _ => eq_comm)

/-- If the atoms match no suffix of `w`, the scan finds nothing. -/
theorem reScan_eq_zero (ats : List Atom) (w : Str)
    (h : ∀ v : Str, v <:+ w → matchAts ats v = false) : ∀ k, reScan ats w k = 0 := by
  induction w with
  | nil => intro k; rfl
  | cons c t ih =>
    have ht : ∀ v : Str, v <:+ t → matchAts ats v = false := fun v hv =>
      h v (hv.trans (List.suffix_cons c t))
    intro k
    cases k with
    | succ k => exact ih ht k
    | zero =>
      rw [reScan, if_neg (by simp [h (c :: t) (List.suffix_refl _)])]
      exact ih ht 0

/-- A non-empty metacharacter-free symbol that does not occur literally in
`w` is found zero times by the regex scan. -/
theorem pyFindallCount_lit_zero (s w : Str) (hne : s ≠ [])
    (hnin : ¬ (s <:+: w)) : pyFindallCount (s.map Atom.lit) w = 0 := by
  have hm : ∀ v : Str, v <:+ w → matchAts (s.map Atom.lit) v = false := by
    intro v hv
    by_contra hb
    have hp : s <+: v := (matchAts_lit_iff s v).1 (by simpa using hb)
    exact hnin (hp.isInfix.trans hv.isInfix)
  have hz := reScan_eq_zero (s.map Atom.lit) w hm 0
  have hmapne : (s.map Atom.lit).isEmpty = false := by
    cases s with
    | nil => exact absurd rfl hne
    | cons a as => rfl
  simp [pyFindallCount, hz, hmapne]

/-- A metacharacter-free symbol compiles to its list of literal atoms. -/
theorem parseSym_plain (s : Str) (h : ∀ c ∈ s, c ∉ reMeta) :
    parseSym s = some (s.map Atom.lit) := by
  induction s with
  | nil => rfl
  | cons c t ih =>
    have hc : c ∉ reMeta := h c (List.mem_cons_self c t)
    have hdot : ¬ (c = '.') := fun e => hc (e ▸ (by decide : '.' ∈ reMeta))
    rw [parseSym, if_neg hdot, if_neg hc, ih (fun x hx => h x (List.mem_cons_of_mem c hx))]
    rfl

/-- If `f` succeeds on every element, `optMap f` succeeds. -/
theorem optMap_all_some {α β : Type} (f : α → Option β) (l : List α)
    (h : ∀ a ∈ l, ∃ b, f a = some b) : ∃ bs, optMap f l = some bs := by
  induction l with
  | nil => exact ⟨[], rfl⟩
  | cons a as ih =>
    obtain ⟨b, hb⟩ := h a (List.mem_cons_self a as)
    obtain ⟨bs, hbs⟩ := ih (fun x hx => h x (List.mem_cons_of_mem a hx))
    exact ⟨b :: bs, by simp [optMap, hb, hbs]⟩

/-- Replacement never raises when the separator is non-empty. -/
theorem replace_nth_some (s sub repl : Str) (n : Nat) (h : sub ≠ []) :
    ∃ t, replace_nth_substring s sub repl n = some t :=
  ⟨_, by rw [replace_nth_substring, if_neg h]⟩

/-- `Rule.get_children` never raises for a plain symbol. -/
theorem rule_children_some (r : Rule) (w : Str) (h : plainSym r.symbol) :
    ∃ l, r.get_children w = some l := by
  obtain ⟨hne, hmeta⟩ := h
  have hp := parseSym_plain r.symbol hmeta
  have hrep : ∀ i ∈ List.range (pyFindallCount (r.symbol.map Atom.lit) w),
      ∃ c, optMap (fun pat => replace_nth_substring w r.symbol pat i) r.patterns = some c := by
    intro i _
    exact optMap_all_some _ _ (fun pat _ => replace_nth_some w r.symbol pat i hne)
  obtain ⟨cs, hcs⟩ := optMap_all_some _ _ hrep
  exact ⟨cs.flatten, by simp [Rule.get_children, hp, hcs]⟩

/-- A rule whose plain symbol does not occur in `w` contributes nothing. -/
theorem rule_children_no_occ (r : Rule) (w : Str) (h : plainSym r.symbol)
    (hnin : ¬ (r.symbol <:+: w)) : r.get_children w = some [] := by
  obtain ⟨hne, hmeta⟩ := h
  have hp := parseSym_plain r.symbol hmeta
  have hz := pyFindallCount_lit_zero r.symbol w hne hnin
  simp [Rule.get_children, hp, hz, optMap]

/-- `Grammar.get_children` never raises when all symbols are plain. -/
theorem grammar_children_some (g : Grammar) (w : Str)
    (h : ∀ r ∈ g.rules, plainSym r.symbol) : ∃ l, g.get_children w = some l := by
  obtain ⟨ls, hls⟩ := optMap_all_some (fun r => Rule.get_children r w) g.rules
    (fun r hr => rule_children_some r w (h r hr))
  exact ⟨ls.flatten, by simp [Grammar.get_children, hls]⟩

/-- The level-building loop never raises when all symbols are plain. -/
theorem buildLevels_some (g : Grammar) (root : Str)
    (h : ∀ r ∈ g.rules, plainSym r.symbol) :
    ∀ d : Nat, ∃ p, buildLevels g root d = some p := by
  intro d
  induction d with
  | zero => exact ⟨([[root]], [root]), rfl⟩
  | succ d ih =>
    obtain ⟨p, hp⟩ := ih
    obtain ⟨cs, hcs⟩ := optMap_all_some (fun node => g.get_children node) p.2
      (fun node _ => grammar_children_some g node h)
    exact ⟨(p.1 ++ [cs.flatten], cs.flatten), by simp [buildLevels, hp, hcs]⟩

/-- One unfolding of `buildLevels`: the levels at depth `d + 1` extend the
levels at depth `d` by one further level. -/
theorem buildLevels_succ_structure (g : Grammar) (root : Str) (d : Nat)
    (P : List (List Str) × List Str) (h : buildLevels g root (d + 1) = some P) :
    ∃ Q nl, buildLevels g root d = some Q ∧ P.1 = Q.1 ++ [nl] := by
  rw [buildLevels] at h
  cases hq : buildLevels g root d with
  | none => rw [hq] at h; exact absurd h (by simp)
  | some Q =>
    rw [hq] at h
    cases hcs : optMap (fun node => g.get_children node) Q.2 with
    | none => simp [hcs] at h
    | some cs =>
      simp [hcs] at h
      exact ⟨Q, cs.flatten, rfl, by rw [← h]⟩

end GrammarExperiment

namespace GrammarExperiment

/-! ### Claims -/

/-- C1: `Rule.get_children` is claimed to count occurrences of the symbol
by a literal-substring scan.  The code instead counts with
`re.findall(symbol, node)`, which compiles the symbol as a regular
expression: the symbol `"."` never occurs literally in `"ab"`, yet the
rule `. -> x` produces two children — and each child `"xab"` is not the
result of replacing any occurrence (the literal splitter finds none, so
the pattern is prepended). -/
theorem rule_get_children_regex_count_bug :
    Rule.get_children ⟨".".data, ["x".data]⟩ "ab".data =
      some ["xab".data, "xab".data] ∧
    ¬ (".".data <:+: "ab".data) := by
  refine ⟨by decide, by decide⟩

/-- C2: the terminal test of `possible_strings` holds exactly when at
least one declared symbol is not a substring of the sentence (an
existential predicate); consequently a sentence lacking any one declared
symbol is classified terminal even if it still contains another. -/
theorem terminal_test_existential :
    (∀ (S : List Str) (a : Str),
        isTerminal S a = true ↔ ∃ x ∈ S, ¬ (x <:+: a)) ∧
    (∀ (S : List Str) (w x y : Str),
        x ∈ S → y ∈ S → (x <:+: w) → ¬ (y <:+: w) → isTerminal S w = true) := by
  have base : ∀ (S : List Str) (a : Str),
      isTerminal S a = true ↔ ∃ x ∈ S, ¬ (x <:+: a) := by
    intro S a
    rw [isTerminal]
    simp [List.isEmpty_iff, List.filter_eq_nil_iff, pyIn_iff]
  exact ⟨base, fun S w x y _ hy _ hny => (base S w).2 ⟨y, hy, hny⟩⟩

/-- C2 witness: with symbols `["A", "B"]`, the sentence `"A"` still
contains `A` but is classified terminal because `B` is absent. -/
theorem terminal_test_existential_witness :
    isTerminal ["A".data, "B".data] "A".data = true :=
  terminal_test_existential.2 ["A".data, "B".data] "A".data "A".data "B".data
    (by decide) (by decide) (by decide) (by decide)

/-- C3 counterexample: for the grammar built from
`"A -> 0 | 1 | 0A | 1A"`, `possible_strings(2)` returns
`["0", "1", "00", "01", "10", "11"]` — expanding `"0A"` yields `"00"`
then `"01"` before `"1A"` yields `"10"`, `"11"` — not the claimed order
`["0", "1", "00", "10", "01", "11"]`. -/
theorem possible_strings_depth2_order_counterexample :
    Grammar.init none (some ["A -> 0 | 1 | 0A | 1A".data]) = .ok gA ∧
    gA.possible_strings 2 none =
      some ["0".data, "1".data, "00".data, "01".data, "10".data, "11".data] ∧
    gA.possible_strings 2 none ≠
      some ["0".data, "1".data, "00".data, "10".data, "01".data, "11".data] := by
  refine ⟨by decide, by decide, by decide⟩

/-- C3 amended: for the grammar built from `"A -> 0 | 1 | 0A | 1A"`,
`possible_strings(1)` returns exactly `["0", "1"]` and
`possible_strings(2)` returns exactly `["0", "1", "00", "01", "10", "11"]`
in that order, with no duplicates. -/
theorem possible_strings_depth_one_two :
    Grammar.init none (some ["A -> 0 | 1 | 0A | 1A".data]) = .ok gA ∧
    gA.possible_strings 1 none = some ["0".data, "1".data] ∧
    gA.possible_strings 2 none =
      some ["0".data, "1".data, "00".data, "01".data, "10".data, "11".data] ∧
    List.Nodup ["0".data, "1".data, "00".data, "01".data, "10".data, "11".data] := by
  refine ⟨by decide, by decide, by decide, by decide⟩

/-- C4: `Grammar.get_children` is the in-order concatenation of the
rules' expansions, but the claimed consequence "no occurring symbol means
an empty result" fails: in the grammar with the single rule `. -> x`, no
rule symbol occurs literally in `"ab"`, yet the result is non-empty
(the regex-based occurrence count finds two matches). -/
theorem grammar_children_regex_occurrence_bug :
    Grammar.get_children gDot "ab".data = some ["xab".data, "xab".data] ∧
    (∀ r ∈ gDot.rules, ¬ (r.symbol <:+: "ab".data)) := by
  refine ⟨by decide, by decide⟩

/-- C5: `possible_strings` without a root uses the concatenation, in rule
declaration order, of every rule's symbol; and at depth 0 it returns the
singleton `[root]` filtered by the terminal test. -/
theorem default_root_and_depth_zero :
    (∀ (g : Grammar) (d : Nat),
        g.possible_strings d none =
          g.possible_strings d (some (g.rules.map Rule.symbol).flatten)) ∧
    (∀ (g : Grammar) (root : Str),
        g.possible_strings 0 (some root) =
          some (if isTerminal (g.rules.map Rule.symbol) root then [root] else [])) := by
  constructor
  · intro g d; rfl
  · intro g root
    cases h : isTerminal (g.rules.map Rule.symbol) root <;>
      simp [Grammar.possible_strings, buildLevels, Grammar.get_symbols, List.filter, h]

/-- C6: whenever `possible_strings` returns at depth `d + 1`, it also
returns at depth `d`, and every sentence of the depth-`d` result appears
in the depth-`(d+1)` result: every earlier level is retained in the
flattened candidate pool before filtering. -/
theorem possible_strings_superset :
    ∀ (g : Grammar) (ro : Option Str) (d : Nat) (res : List Str),
      g.possible_strings (d + 1) ro = some res →
      ∃ prev, g.possible_strings d ro = some prev ∧ ∀ s ∈ prev, s ∈ res := by
  intro g ro d res h
  cases hb : buildLevels g (ro.getD g.default_root) (d + 1) with
  | none => rw [Grammar.possible_strings, hb] at h; exact absurd h (by simp)
  | some P =>
    rw [Grammar.possible_strings] at h
    simp [hb] at h
    subst h
    obtain ⟨Q, nl, hQ, hP1⟩ := buildLevels_succ_structure g _ d P hb
    refine ⟨Q.1.flatten.filter (fun a => isTerminal g.get_symbols a),
      by simp [Grammar.possible_strings, hQ], ?_⟩
    intro s hs
    rw [hP1, List.map_append, List.flatten_append]
    exact List.mem_append_left _ (by simpa [List.filter_flatten] using hs)

/-- C6 witness: for the grammar of `"A -> 0 | 1 | 0A | 1A"`, the depth-1
result `["0", "1"]` contains every sentence of the depth-0 result. -/
theorem possible_strings_superset_witness :
    ∃ prev, gA.possible_strings 0 none = some prev ∧
      ∀ s ∈ prev, s ∈ ["0".data, "1".data] :=
  possible_strings_superset gA none 0 ["0".data, "1".data] (by decide)

/-- C7 counterexample: a rule with the empty symbol raises
(`str.split` raises `ValueError` on an empty separator, modelled by
`none`), so not every non-constructor engine operation completes without
raising. -/
theorem get_children_empty_symbol_raises :
    Rule.get_children ⟨[], ["x".data]⟩ "a".data = none := by decide

/-- C7 amended: constructing a Grammar raises `GrammarError` exactly when
neither rules nor string_rules are supplied; and `get_children` on Rule
and Grammar, and `possible_strings`, complete without raising provided
every rule's symbol is non-empty and free of regex metacharacters. -/
theorem grammar_error_conditions :
    (∀ (rs : Option (List Rule)) (ss : Option (List Str)),
        Grammar.init rs ss = .grammarError ↔ rs = none ∧ ss = none) ∧
    (∀ (r : Rule) (w : Str), plainSym r.symbol → ∃ l, r.get_children w = some l) ∧
    (∀ (g : Grammar) (w : Str), (∀ r ∈ g.rules, plainSym r.symbol) →
        ∃ l, g.get_children w = some l) ∧
    (∀ (g : Grammar) (d : Nat) (ro : Option Str), (∀ r ∈ g.rules, plainSym r.symbol) →
        ∃ l, g.possible_strings d ro = some l) := by
  refine ⟨?_, rule_children_some, grammar_children_some, ?_⟩
  · intro rs ss
    cases ss with
    | some l => cases hs : strings_to_rules l <;> simp [Grammar.init, hs]
    | none => cases rs <;> simp [Grammar.init]
  · intro g d ro h
    obtain ⟨p, hp⟩ := buildLevels_some g (ro.getD g.default_root) h d
    exact ⟨p.1.flatten.filter (fun a => isTerminal g.get_symbols a),
      by simp [Grammar.possible_strings, hp]⟩

/-- C7 witness: `GrammarError` occurs with no rule source, and the
operations succeed on a plain-symbol rule. -/
theorem grammar_error_conditions_witness :
    (Grammar.init none none = .grammarError ↔ (none : Option (List Rule)) = none ∧
      (none : Option (List Str)) = none) ∧
    ∃ l, Rule.get_children ⟨"A".data, ["0".data]⟩ "AA".data = some l :=
  ⟨grammar_error_conditions.1 none none,
    grammar_error_conditions.2.1 ⟨"A".data, ["0".data]⟩ "AA".data (by decide)⟩

/-- C8 counterexample: the rule with the empty symbol applied to the
empty sentence raises (`none`) rather than returning the empty list. -/
theorem empty_sentence_empty_symbol_counterexample :
    Rule.get_children ⟨[], ["x".data]⟩ [] = none := by decide

/-- C8 amended: for every rule whose symbol is non-empty and free of
regex metacharacters, `get_children` returns the empty list whenever the
symbol does not occur in the sentence, and in particular on the empty
sentence. -/
theorem no_occurrence_empty_children :
    (∀ (r : Rule) (w : Str), plainSym r.symbol → ¬ (r.symbol <:+: w) →
        r.get_children w = some []) ∧
    (∀ r : Rule, plainSym r.symbol → r.get_children [] = some []) := by
  refine ⟨rule_children_no_occ, ?_⟩
  intro r h
  exact rule_children_no_occ r [] h (fun hi => h.1 (List.infix_nil.mp hi))

/-- C8 witness: the rule `A -> 0` contributes nothing on `"B"`. -/
theorem no_occurrence_empty_children_witness :
    Rule.get_children ⟨"A".data, ["0".data]⟩ "B".data = some [] :=
  no_occurrence_empty_children.1 ⟨"A".data, ["0".data]⟩ "B".data
    (by decide) (by decide)

/-- C9: the Rule parsed from `"A -> 0 | 1"` and the Rule built directly
from symbol `"A"` and patterns `["0", "1"]` have identical `get_children`
results on every sentence. -/
theorem rule_string_roundtrip :
    ∀ (w : Str) (r : Rule),
      Rule.from_string "A -> 0 | 1".data = some r →
      r.get_children w = Rule.get_children ⟨"A".data, ["0".data, "1".data]⟩ w := by
  intro w r h
  have e : Rule.from_string "A -> 0 | 1".data =
      some ⟨"A".data, ["0".data, "1".data]⟩ := by decide
  rw [e] at h
  cases h
  rfl

/-- C9 witness: the round-trip equality at the sentence `"AA"`. -/
theorem rule_string_roundtrip_witness :
    Rule.get_children ⟨"A".data, ["0".data, "1".data]⟩ "AA".data =
      Rule.get_children ⟨"A".data, ["0".data, "1".data]⟩ "AA".data :=
  rule_string_roundtrip "AA".data ⟨"A".data, ["0".data, "1".data]⟩ (by decide)

/-- C10: when both `rules` and `string_rules` are supplied, `string_rules`
wins: construction behaves exactly as if `rules` had not been given, and
a successfully built grammar's rules are those parsed from
`string_rules`. -/
theorem string_rules_precedence :
    (∀ (rs : List Rule) (ss : List Str),
        Grammar.init (some rs) (some ss) = Grammar.init none (some ss)) ∧
    (∀ (rs : List Rule) (ss : List Str) (g : Grammar),
        Grammar.init (some rs) (some ss) = .ok g →
        strings_to_rules ss = some g.rules) := by
  constructor
  · intro rs ss; rfl
  · intro rs ss g h
    cases hs : strings_to_rules ss with
    | none => simp [Grammar.init, hs] at h
    | some rls =>
      simp [Grammar.init, hs] at h
      subst h
      simp [hs]

/-- C10 witness: both arguments supplied; the parsed textual rule wins. -/
theorem string_rules_precedence_witness :
    strings_to_rules ["A -> 0 | 1".data] =
      some (Grammar.mk [⟨"A".data, ["0".data, "1".data]⟩]).rules :=
  string_rules_precedence.2 [] ["A -> 0 | 1".data]
    ⟨[⟨"A".data, ["0".data, "1".data]⟩]⟩ (by decide)

end GrammarExperiment
